import Mathlib

/-!
Verification development for the smart-hl streaming trade pipeline.

The definitions below are a shallow embedding of the TypeScript source:
* `processTradeFull` embeds `processTrade` from the trade-processor hook
  (src/lib/constants.ts, `useProcessor`), including its counter updates;
* `addTrade`, `addTrades`, `clearTrades` embed the Zustand store actions
  (src/store/useStore.ts);
* `onClose` embeds the WebSocket `ws.onclose` reconnect handler
  (src/hooks/useHyperliquidWS.ts);
* `generateTradeId` embeds the id generator (src/lib/utils.ts).

JavaScript numbers are modelled by `JsNum`: a rational value or `nan`.
A raw trade's `px`/`sz` fields hold the value `parseFloat` produces on the
raw decimal string; `JsNum.nan` models a non-numeric string.  All NaN
propagation rules used by the source (`NaN * x = NaN`, every ordered
comparison against `NaN` is false) are reproduced in the `js*` operations.
-/

/-- A JavaScript number: either NaN or a rational value. -/
inductive JsNum where
  | nan : JsNum
  | num : ℚ → JsNum
deriving DecidableEq

/-- JavaScript multiplication: NaN is absorbing. -/
def jsMul : JsNum → JsNum → JsNum
  | JsNum.nan, _ => JsNum.nan
  | _, JsNum.nan => JsNum.nan
  | JsNum.num a, JsNum.num b => JsNum.num (a * b)

/-- JavaScript addition: NaN is absorbing. -/
def jsAdd : JsNum → JsNum → JsNum
  | JsNum.nan, _ => JsNum.nan
  | _, JsNum.nan => JsNum.nan
  | JsNum.num a, JsNum.num b => JsNum.num (a + b)

/-- JavaScript `a >= b`: false whenever either side is NaN. -/
def jsGeB : JsNum → JsNum → Bool
  | JsNum.num a, JsNum.num b => decide (b ≤ a)
  | _, _ => false

/-- JavaScript `a < b`: false whenever either side is NaN. -/
def jsLtB : JsNum → JsNum → Bool
  | JsNum.num a, JsNum.num b => decide (a < b)
  | _, _ => false

/-- JavaScript `a <= b`: false whenever either side is NaN. -/
def jsLeB : JsNum → JsNum → Bool
  | JsNum.num a, JsNum.num b => decide (a ≤ b)
  | _, _ => false

/-- JavaScript `a || b` on optional strings: the empty string and
`undefined` (`none`) are falsy. -/
def jsOrStr (a b : Option String) : Option String :=
  match a with
  | some s => if s = "" then b else some s
  | none => b

/-- Lowercase a string character by character (JS `toLowerCase`). -/
def toLowerStr (s : String) : String :=
  String.mk (s.data.map Char.toLower)

/-! ## Decimal rendering of a trade id (src/lib/utils.ts `generateTradeId`) -/

/-- Character for a decimal digit `d < 10` (JS number-to-string). -/
def digitChar10 (d : ℕ) : Char := Char.ofNat (48 + d)

/-- Little-endian decimal digits of `n`, driven by explicit fuel so the
definition is structurally recursive. -/
def toDigitsAux : ℕ → ℕ → List ℕ
  | 0, _ => []
  | fuel + 1, n => if n = 0 then [] else n % 10 :: toDigitsAux fuel (n / 10)

/-- Little-endian decimal digits of `n` (empty for `0`). -/
def natDigitsRev (n : ℕ) : List ℕ := toDigitsAux n n

/-- Decimal representation of a natural number as JS `String(n)` renders
it: most significant digit first, `"0"` for zero. -/
def natRepr (n : ℕ) : List Char :=
  if n = 0 then [Char.ofNat 48] else ((natDigitsRev n).map digitChar10).reverse

/-- Embeds `generateTradeId(tid, hash)` = `` `${tid}-${hash.slice(0, 8)}` ``
from src/lib/utils.ts.  The source trade id is a nonnegative integer. -/
def generateTradeId (tid : ℕ) (hash : String) : String :=
  String.mk (natRepr tid ++ Char.ofNat 45 :: hash.data.take 8)

/-! ## Raw events, lookup table and normalized records -/

/-- A tracked-wallet entry of the `SmartWalletMap` (types/index.ts). -/
structure SmartWalletEntry where
  isSmartMoney : Bool
  labels : List String
  tier : String
deriving DecidableEq

/-- The Reference Lookup Table, keyed by lowercased address: the JS object
lookup `map[addr]` is modelled as a total function into `Option`. -/
def SmartWalletMap : Type := String → Option SmartWalletEntry

/-- A raw trade event from the Hyperliquid WebSocket (types/index.ts
`HyperliquidTrade`).  `px`/`sz` hold the result of `parseFloat` on the raw
decimal strings; `JsNum.nan` models a non-numeric string.  `users` is split
into its two components, element 0 being the maker. -/
structure HyperliquidTrade where
  coin : String
  side : String
  px : JsNum
  sz : JsNum
  time : ℕ
  hash : String
  tid : ℕ
  maker : String
  taker : String
deriving DecidableEq

/-- The two-valued display side of a normalized record. -/
inductive TradeSide where
  | long : TradeSide
  | short : TradeSide
deriving DecidableEq

/-- The normalized, display-ready record (types/index.ts
`UnifiedTradeLog`). -/
structure UnifiedTradeLog where
  id : String
  timestamp : ℕ
  ticker : String
  side : TradeSide
  price : JsNum
  sizeUsd : JsNum
  walletAddress : String
  walletLabel : Option String
  isWhale : Bool
  isSmart : Bool
  txHash : String
deriving DecidableEq

/-- Large-notional ("whale") threshold from the processor hook. -/
def WHALE_THRESHOLD_USD : ℚ := 100000

/-- Noise threshold from the processor hook. -/
def NOISE_THRESHOLD_USD : ℚ := 1000

/-- Processor counters (`ProcessorStats` in the hook). -/
structure ProcessorStats where
  processed : ℕ
  filtered : ℕ
  enriched : ℕ
deriving DecidableEq

/-- Embeds `processTrade` from the trade-processor hook, together with its
updates to the `ProcessorStats` counters.  Mirrors the source line by
line: parse price/size (already-parsed `JsNum`s here), compute notional,
look both lowercased addresses up, classify smart/whale, apply the noise
filter, and otherwise build the `UnifiedTradeLog`. -/
def processTradeFull (smartMoneyMap : SmartWalletMap) (rawTrade : HyperliquidTrade)
    (st : ProcessorStats) : Option UnifiedTradeLog × ProcessorStats :=
  let st1 : ProcessorStats := { st with processed := st.processed + 1 }
  let price := rawTrade.px
  let size := rawTrade.sz
  let sizeUsd := jsMul price size
  let makerLower := toLowerStr rawTrade.maker
  let takerLower := toLowerStr rawTrade.taker
  let makerData := smartMoneyMap makerLower
  let takerData := smartMoneyMap takerLower
  let isSmart := makerData.isSome || takerData.isSome
  let smartWalletData := makerData.or takerData
  let smartWalletAddress := if makerData.isSome then rawTrade.maker else rawTrade.taker
  let isWhale := jsGeB sizeUsd (JsNum.num WHALE_THRESHOLD_USD)
  if !isSmart && !isWhale && jsLtB sizeUsd (JsNum.num NOISE_THRESHOLD_USD) then
    (none, { st1 with filtered := st1.filtered + 1 })
  else
    let trade : UnifiedTradeLog :=
      { id := generateTradeId rawTrade.tid rawTrade.hash
        timestamp := rawTrade.time
        ticker := rawTrade.coin
        side := if rawTrade.side = "B" then TradeSide.long else TradeSide.short
        price := price
        sizeUsd := sizeUsd
        walletAddress :=
          if isSmart then smartWalletAddress
          else if isWhale then rawTrade.taker else rawTrade.maker
        walletLabel :=
          jsOrStr (smartWalletData.bind (fun e => e.labels.head?))
            (if isWhale then some "Whale" else none)
        isWhale := isWhale
        isSmart := isSmart
        txHash := rawTrade.hash }
    (some trade, if isSmart then { st1 with enriched := st1.enriched + 1 } else st1)

/-! ## The Zustand store (src/store/useStore.ts) -/

/-- Connection states of the store. -/
inductive ConnectionStatus where
  | disconnected : ConnectionStatus
  | connecting : ConnectionStatus
  | connected : ConnectionStatus
  | error : ConnectionStatus
deriving DecidableEq

/-- Filter options of the store. -/
structure FilterOptions where
  showSmartOnly : Bool
  showWhalesOnly : Bool
  minTradeSize : ℚ
  selectedCoins : List String
deriving DecidableEq

/-- Aggregate statistics of the store. -/
structure Stats where
  totalTrades : ℕ
  smartTrades : ℕ
  whaleTrades : ℕ
  totalVolume : JsNum
deriving DecidableEq

/-- The store state (the slice of `StoreState` the claims are about). -/
structure StoreState where
  smartMoneyMap : SmartWalletMap
  trades : List UnifiedTradeLog
  maxTrades : ℕ
  connectionStatus : ConnectionStatus
  lastMessageTime : Option ℕ
  messageCount : ℕ
  errorMessage : Option String
  filters : FilterOptions
  stats : Stats

/-- Identifiers of the records in a list, in order. -/
def idsOf (l : List UnifiedTradeLog) : List String := l.map (fun t => t.id)

/-- Embeds the store action `addTrade`: bump the counters by the single
trade and prepend it, truncating to `maxTrades` (JS `slice(0, maxTrades)`).
No deduplication is performed. -/
def addTrade (s : StoreState) (trade : UnifiedTradeLog) : StoreState :=
  { s with
    trades := (trade :: s.trades).take s.maxTrades
    stats :=
      { totalTrades := s.stats.totalTrades + 1
        smartTrades := s.stats.smartTrades + (if trade.isSmart then 1 else 0)
        whaleTrades := s.stats.whaleTrades + (if trade.isWhale then 1 else 0)
        totalVolume := jsAdd s.stats.totalVolume trade.sizeUsd } }

/-- Embeds the store action `addTrades`: the counters are bumped by sums
over the whole incoming batch (computed before any deduplication), then
the batch is filtered against the identifiers already present, prepended,
and the result truncated to `maxTrades`. -/
def addTrades (s : StoreState) (newTrades : List UnifiedTradeLog) : StoreState :=
  let smartCount := (newTrades.filter (fun t => t.isSmart)).length
  let whaleCount := (newTrades.filter (fun t => t.isWhale)).length
  let volume := newTrades.foldl (fun acc t => jsAdd acc t.sizeUsd) (JsNum.num 0)
  let newStats : Stats :=
    { totalTrades := s.stats.totalTrades + newTrades.length
      smartTrades := s.stats.smartTrades + smartCount
      whaleTrades := s.stats.whaleTrades + whaleCount
      totalVolume := jsAdd s.stats.totalVolume volume }
  let existingIds := idsOf s.trades
  let uniqueNewTrades := newTrades.filter (fun t => !(decide (t.id ∈ existingIds)))
  let mergedTrades := (uniqueNewTrades ++ s.trades).take s.maxTrades
  { s with trades := mergedTrades, stats := newStats }

/-- Embeds the store action `clearTrades`: empty the collection and zero
the counters; every other field is untouched. -/
def clearTrades (s : StoreState) : StoreState :=
  { s with
    trades := []
    stats :=
      { totalTrades := 0, smartTrades := 0, whaleTrades := 0
        totalVolume := JsNum.num 0 } }

/-- Default filter values of the store. -/
def defaultFilters : FilterOptions :=
  { showSmartOnly := false, showWhalesOnly := false, minTradeSize := 0
    selectedCoins := [] }

/-- The store's initial state. -/
def initialStore : StoreState :=
  { smartMoneyMap := fun _ => none
    trades := []
    maxTrades := 100
    connectionStatus := ConnectionStatus.disconnected
    lastMessageTime := none
    messageCount := 0
    errorMessage := none
    filters := defaultFilters
    stats :=
      { totalTrades := 0, smartTrades := 0, whaleTrades := 0
        totalVolume := JsNum.num 0 } }

/-! ## The WebSocket reconnect policy (src/hooks/useHyperliquidWS.ts) -/

/-- Maximum reconnect attempts of the connector. -/
def MAX_RECONNECT_ATTEMPTS : ℕ := 5

/-- Base reconnect delay of the connector, in milliseconds. -/
def RECONNECT_DELAY_BASE : ℕ := 3000

/-- The connector state the `onclose` handler reads and writes: the
reconnect-attempt counter and the surfaced status. -/
structure ConnState where
  reconnectAttempts : ℕ
  status : ConnectionStatus
deriving DecidableEq

/-- Embeds the `ws.onclose` handler.  Returns the new connector state and
the delay of the single reconnection attempt it schedules, if any: close
code 1000 transitions to `disconnected` with no attempt; otherwise, below
the maximum the counter is bumped and one attempt is scheduled after
`RECONNECT_DELAY_BASE * attempts` ms; at the maximum the status becomes
`error` and nothing is scheduled. -/
def onClose (s : ConnState) (code : ℕ) : ConnState × Option ℕ :=
  if code = 1000 then
    ({ s with status := ConnectionStatus.disconnected }, none)
  else if s.reconnectAttempts < MAX_RECONNECT_ATTEMPTS then
    ({ s with reconnectAttempts := s.reconnectAttempts + 1 },
      some (RECONNECT_DELAY_BASE * (s.reconnectAttempts + 1)))
  else
    ({ s with status := ConnectionStatus.error }, none)

/-- Connector state right after a successful `onopen`, which resets the
attempt counter to zero. -/
def connectedFresh : ConnState :=
  { reconnectAttempts := 0, status := ConnectionStatus.connected }

/-- State after a sequence of closures with the given close codes. -/
def closeSeq (s : ConnState) (codes : List ℕ) : ConnState :=
  codes.foldl (fun st c => (onClose st c).1) s

/-! ## Helper lemmas -/

lemma jsAdd_zero_left (x : JsNum) : jsAdd (JsNum.num 0) x = x := by
  cases x with
  | nan => rfl
  | num q => simp [jsAdd]

lemma closeSeq_attempts (codes : List ℕ) : ∀ s : ConnState,
    (∀ c ∈ codes, c ≠ 1000) →
    s.reconnectAttempts + codes.length ≤ MAX_RECONNECT_ATTEMPTS →
    (closeSeq s codes).reconnectAttempts = s.reconnectAttempts + codes.length := by
  induction codes with
  | nil => intro s _ _; simp [closeSeq]
  | cons c cs ih =>
    intro s h hle
    have hc : c ≠ 1000 := h c (by simp)
    have hlt : s.reconnectAttempts < MAX_RECONNECT_ATTEMPTS := by
      simp only [List.length_cons] at hle; omega
    have hstep : (onClose s c).1 =
        { s with reconnectAttempts := s.reconnectAttempts + 1 } := by
      simp [onClose, hc, hlt]
    simp only [closeSeq, List.foldl_cons]
    have hrec := ih ((onClose s c).1)
      (fun x hx => h x (by simp [hx]))
      (by rw [hstep]; simp only [List.length_cons] at hle; simpa using by omega)
    simp only [closeSeq] at hrec
    rw [hrec, hstep]
    simp only [List.length_cons]
    omega

/-- C6: reconnect backoff.  After `k - 1` consecutive abnormal closures
from a freshly connected state, the `k`-th abnormal closure with
`k ≤ MAX_RECONNECT_ATTEMPTS` schedules exactly one reconnection attempt
after `RECONNECT_DELAY_BASE * k` milliseconds (linear backoff); the first
abnormal closure after the maximum is exhausted transitions the connector
to the terminal `error` status and schedules no further attempt. -/
theorem reconnect_backoff (codes : List ℕ) (c : ℕ)
    (hcodes : ∀ x ∈ codes, x ≠ 1000) (hc : c ≠ 1000) :
    (codes.length + 1 ≤ MAX_RECONNECT_ATTEMPTS →
      onClose (closeSeq connectedFresh codes) c =
        ({ closeSeq connectedFresh codes with
            reconnectAttempts := codes.length + 1 },
          some (RECONNECT_DELAY_BASE * (codes.length + 1)))) ∧
    (codes.length = MAX_RECONNECT_ATTEMPTS →
      onClose (closeSeq connectedFresh codes) c =
        ({ closeSeq connectedFresh codes with
            status := ConnectionStatus.error }, none)) := by
  constructor
  · intro hk
    have hatt : (closeSeq connectedFresh codes).reconnectAttempts = codes.length := by
      have := closeSeq_attempts codes connectedFresh hcodes (by simp [connectedFresh]; omega)
      simpa [connectedFresh] using this
    have hlt : codes.length < MAX_RECONNECT_ATTEMPTS := Nat.lt_of_succ_le hk
    simp [onClose, hc, hlt, hatt]
  · intro hk
    have hatt : (closeSeq connectedFresh codes).reconnectAttempts = codes.length := by
      have := closeSeq_attempts codes connectedFresh hcodes (by simp [connectedFresh]; omega)
      simpa [connectedFresh] using this
    have hnlt : ¬ (closeSeq connectedFresh codes).reconnectAttempts <
        MAX_RECONNECT_ATTEMPTS := by omega
    simp [onClose, hc, hnlt]

/-- Witness for C6: one abnormal closure already happened; the second is
scheduled after 6000 ms; and after five abnormal closures, a sixth
transitions to the terminal error status with nothing scheduled. -/
theorem reconnect_backoff_witness :
    onClose (closeSeq connectedFresh [1006]) 1001 =
      ({ closeSeq connectedFresh [1006] with reconnectAttempts := 2 }, some 6000) ∧
    onClose (closeSeq connectedFresh [1001, 1002, 1003, 1004, 1005]) 1006 =
      ({ closeSeq connectedFresh [1001, 1002, 1003, 1004, 1005] with
          status := ConnectionStatus.error }, none) := by
  constructor
  · exact (reconnect_backoff [1006] 1001 (by decide) (by decide)).1 (by decide)
  · exact (reconnect_backoff [1001, 1002, 1003, 1004, 1005] 1006
      (by decide) (by decide)).2 (by decide)

/-- C9: `clearTrades` empties the collection and zeroes every aggregate
counter while leaving the lookup table, connection status, error message,
message count, last-message time, filters and capacity unchanged. -/
theorem clearTrades_frame (s : StoreState) :
    (clearTrades s).trades = [] ∧
    (clearTrades s).stats.totalTrades = 0 ∧
    (clearTrades s).stats.smartTrades = 0 ∧
    (clearTrades s).stats.whaleTrades = 0 ∧
    (clearTrades s).stats.totalVolume = JsNum.num 0 ∧
    (clearTrades s).smartMoneyMap = s.smartMoneyMap ∧
    (clearTrades s).connectionStatus = s.connectionStatus ∧
    (clearTrades s).errorMessage = s.errorMessage ∧
    (clearTrades s).messageCount = s.messageCount ∧
    (clearTrades s).lastMessageTime = s.lastMessageTime ∧
    (clearTrades s).filters = s.filters ∧
    (clearTrades s).maxTrades = s.maxTrades :=
  ⟨rfl, rfl, rfl, rfl, rfl, rfl, rfl, rfl, rfl, rfl, rfl, rfl⟩

lemma ite_pair_fst (c : Bool) (t : UnifiedTradeLog) (a b a' b' : ProcessorStats) :
    (if c = true then ((none : Option UnifiedTradeLog), a) else (some t, b)).1
      = (if c = true then ((none : Option UnifiedTradeLog), a') else (some t, b')).1 := by
  cases c <;> rfl

lemma processTradeFull_fst_stats (m : SmartWalletMap) (raw : HyperliquidTrade)
    (st st' : ProcessorStats) :
    (processTradeFull m raw st).1 = (processTradeFull m raw st').1 := by
  simp only [processTradeFull]
  exact ite_pair_fst _ _ _ _ _ _

/-- Concrete empty lookup table used by witnesses and counterexamples. -/
def emptyMap : SmartWalletMap := fun _ => none

/-- Concrete zero processor counters. -/
def st0 : ProcessorStats := { processed := 0, filtered := 0, enriched := 0 }

/-- A concrete raw event with the given side, price and size. -/
def mkRaw (side : String) (px sz : JsNum) : HyperliquidTrade :=
  { coin := "BTC", side := side, px := px, sz := sz, time := 1000
    hash := "0xhash", tid := 1, maker := "0xA", taker := "0xB" }

/-- Normal form of `processTrade` on a numeric, untracked event: whales
are attributed to the taker with the whale label; sub-noise events are
filtered; the rest are attributed to the maker with no label. -/
lemma processTradeFull_untracked (m : SmartWalletMap) (raw : HyperliquidTrade)
    (st : ProcessorStats) (p q : ℚ)
    (hp : raw.px = JsNum.num p) (hq : raw.sz = JsNum.num q)
    (hm : m (toLowerStr raw.maker) = none) (ht : m (toLowerStr raw.taker) = none) :
    processTradeFull m raw st =
      if WHALE_THRESHOLD_USD ≤ p * q then
        (some { id := generateTradeId raw.tid raw.hash
                timestamp := raw.time
                ticker := raw.coin
                side := if raw.side = "B" then TradeSide.long else TradeSide.short
                price := JsNum.num p
                sizeUsd := JsNum.num (p * q)
                walletAddress := raw.taker
                walletLabel := some "Whale"
                isWhale := true
                isSmart := false
                txHash := raw.hash },
          { st with processed := st.processed + 1 })
      else if p * q < NOISE_THRESHOLD_USD then
        (none, { st with processed := st.processed + 1, filtered := st.filtered + 1 })
      else
        (some { id := generateTradeId raw.tid raw.hash
                timestamp := raw.time
                ticker := raw.coin
                side := if raw.side = "B" then TradeSide.long else TradeSide.short
                price := JsNum.num p
                sizeUsd := JsNum.num (p * q)
                walletAddress := raw.maker
                walletLabel := none
                isWhale := false
                isSmart := false
                txHash := raw.hash },
          { st with processed := st.processed + 1 }) := by
  by_cases hW : WHALE_THRESHOLD_USD ≤ p * q
  · simp [processTradeFull, hp, hq, hm, ht, jsMul, jsGeB, jsLtB, jsOrStr, hW]
  · by_cases hN : p * q < NOISE_THRESHOLD_USD
    · simp [processTradeFull, hp, hq, hm, ht, jsMul, jsGeB, jsLtB, jsOrStr, hW, hN]
    · simp [processTradeFull, hp, hq, hm, ht, jsMul, jsGeB, jsLtB, jsOrStr, hW, hN]

/-- C5: for a raw event with numeric price `p` and size `q` whose
addresses are both absent from the lookup table, `processTrade` discards
the event iff the notional is strictly below the noise threshold (so a
notional exactly at the noise threshold is retained), and the emitted
record's `isWhale` flag holds iff the notional meets the large-trade
threshold inclusively, `isWhale` suppressing the noise filter. -/
theorem noise_threshold_boundary (m : SmartWalletMap) (raw : HyperliquidTrade)
    (st : ProcessorStats) (p q : ℚ)
    (hp : raw.px = JsNum.num p) (hq : raw.sz = JsNum.num q)
    (hm : m (toLowerStr raw.maker) = none) (ht : m (toLowerStr raw.taker) = none) :
    ((processTradeFull m raw st).1 = none ↔
      (p * q < NOISE_THRESHOLD_USD ∧ ¬ WHALE_THRESHOLD_USD ≤ p * q)) ∧
    (∀ rec, (processTradeFull m raw st).1 = some rec →
      (rec.isWhale = true ↔ WHALE_THRESHOLD_USD ≤ p * q)) := by
  rw [processTradeFull_untracked m raw st p q hp hq hm ht]
  by_cases hW : WHALE_THRESHOLD_USD ≤ p * q
  · constructor
    · simp [hW]
    · intro rec hrec
      simp only [if_pos hW] at hrec
      cases hrec
      simp [hW]
  · by_cases hN : p * q < NOISE_THRESHOLD_USD
    · constructor
      · simp [hW, hN]
      · intro rec hrec
        simp [hW, hN] at hrec
    · constructor
      · simp [hW, hN]
      · intro rec hrec
        simp only [if_neg hW, if_neg hN] at hrec
        cases hrec
        simp [hW]

/-- Witness for C5: a 1000-notional untracked event is retained, and on a
100000-notional untracked event the discard-iff characterization holds
(the event is retained and flagged large). -/
theorem noise_threshold_boundary_witness :
    ¬ ((processTradeFull emptyMap (mkRaw "B" (JsNum.num 1000) (JsNum.num 1)) st0).1
        = none) ∧
    ((processTradeFull emptyMap (mkRaw "B" (JsNum.num 100000) (JsNum.num 1)) st0).1
        = none ↔
      ((100000 : ℚ) * 1 < NOISE_THRESHOLD_USD ∧
        ¬ WHALE_THRESHOLD_USD ≤ (100000 : ℚ) * 1)) := by
  constructor
  · intro hnone
    have h := (noise_threshold_boundary emptyMap
      (mkRaw "B" (JsNum.num 1000) (JsNum.num 1)) st0 1000 1
      rfl rfl rfl rfl).1.mp hnone
    norm_num [NOISE_THRESHOLD_USD] at h
  · exact (noise_threshold_boundary emptyMap
      (mkRaw "B" (JsNum.num 100000) (JsNum.num 1)) st0 100000 1
      rfl rfl rfl rfl).1

lemma jsMul_nan_right (x : JsNum) : jsMul x JsNum.nan = JsNum.nan := by
  cases x <;> rfl

lemma jsMul_nan_left (x : JsNum) : jsMul JsNum.nan x = JsNum.nan := by
  cases x <;> rfl

/-- C2 (amended): an event whose price or size string is non-numeric
(`parseFloat` yields NaN) is NOT discarded: its NaN notional makes every
threshold comparison false, so the noise filter never fires, the filtered
counter is unchanged, and a record with NaN notional is emitted; the
outcome never depends on the counter state, so other events are
unaffected, and no exception is involved (the embedding is total). -/
theorem nan_event_not_filtered (m : SmartWalletMap) (raw : HyperliquidTrade)
    (st : ProcessorStats) (h : raw.px = JsNum.nan ∨ raw.sz = JsNum.nan) :
    ((processTradeFull m raw st).1).map (fun r => r.sizeUsd) = some JsNum.nan ∧
    (processTradeFull m raw st).2.filtered = st.filtered ∧
    (∀ st', (processTradeFull m raw st').1 = (processTradeFull m raw st).1) := by
  have hsize : jsMul raw.px raw.sz = JsNum.nan := by
    rcases h with h1 | h1
    · rw [h1]; exact jsMul_nan_left _
    · rw [h1]; exact jsMul_nan_right _
  have hW : jsGeB JsNum.nan (JsNum.num WHALE_THRESHOLD_USD) = false := rfl
  have hLt : jsLtB JsNum.nan (JsNum.num NOISE_THRESHOLD_USD) = false := rfl
  refine ⟨?_, ?_, fun st' => processTradeFull_fst_stats m raw st' st⟩
  · simp [processTradeFull, hsize, hW, hLt]
  · simp only [processTradeFull, hsize, hW, hLt, Bool.and_false]
    simp only [Bool.false_eq_true, if_false]
    split <;> rfl

/-- Counterexample for C2: a raw event with non-numeric price (NaN) and
numeric size is not discarded — a record is emitted — and the filtered
counter is not incremented, contradicting the claim that such an event is
discarded and counted as filtered. -/
theorem nan_event_cex :
    ((processTradeFull emptyMap (mkRaw "B" JsNum.nan (JsNum.num 2)) st0).1).isSome
      = true ∧
    (processTradeFull emptyMap (mkRaw "B" JsNum.nan (JsNum.num 2)) st0).2.filtered
      = 0 :=
  ⟨rfl, rfl⟩

/-- Witness for C2's amended theorem at a concrete NaN-price event. -/
theorem nan_event_not_filtered_witness :
    ((processTradeFull emptyMap (mkRaw "B" JsNum.nan (JsNum.num 2)) st0).1).map
        (fun r => r.sizeUsd) = some JsNum.nan ∧
    (processTradeFull emptyMap (mkRaw "B" JsNum.nan (JsNum.num 2)) st0).2.filtered
      = st0.filtered ∧
    (processTradeFull emptyMap (mkRaw "B" JsNum.nan (JsNum.num 2))
        { processed := 7, filtered := 7, enriched := 7 }).1
      = (processTradeFull emptyMap (mkRaw "B" JsNum.nan (JsNum.num 2)) st0).1 := by
  have h := nan_event_not_filtered emptyMap (mkRaw "B" JsNum.nan (JsNum.num 2)) st0
    (Or.inl rfl)
  exact ⟨h.1, h.2.1, h.2.2 { processed := 7, filtered := 7, enriched := 7 }⟩

lemma ite_pair_isSome (c : Bool) (t t' : UnifiedTradeLog) (a b a' b' : ProcessorStats) :
    ((if c = true then ((none : Option UnifiedTradeLog), a) else (some t, b)).1).isSome
      = ((if c = true then ((none : Option UnifiedTradeLog), a') else (some t', b')).1).isSome := by
  cases c <;> rfl

/-- C7 (amended): raw side "B" maps to Long, and every other raw side
value — "A" included, malformed values included — maps to Short; a
malformed side value is NOT treated as a parse failure: whether the event
is discarded does not depend on the side value at all. -/
theorem side_mapping_amended (m : SmartWalletMap) (raw : HyperliquidTrade)
    (st : ProcessorStats) :
    (∀ rec, (processTradeFull m raw st).1 = some rec →
      rec.side = (if raw.side = "B" then TradeSide.long else TradeSide.short)) ∧
    (∀ sideVal : String,
      ((processTradeFull m { raw with side := sideVal } st).1).isSome
        = ((processTradeFull m raw st).1).isSome) := by
  constructor
  · intro rec hrec
    simp only [processTradeFull] at hrec
    split at hrec
    · simp at hrec
    · simp only [Prod.fst, Option.some.injEq] at hrec
      rw [← hrec]
  · intro sideVal
    simp only [processTradeFull]
    exact ite_pair_isSome _ _ _ _ _ _ _

/-- A concrete raw event with malformed side value "X". -/
def rawSideX : HyperliquidTrade := mkRaw "X" (JsNum.num 50000) (JsNum.num 3)

/-- The record the processor emits for `rawSideX`. -/
def recSideX : UnifiedTradeLog :=
  { id := generateTradeId 1 "0xhash", timestamp := 1000, ticker := "BTC"
    side := TradeSide.short, price := JsNum.num 50000
    sizeUsd := JsNum.num (50000 * 3), walletAddress := "0xB"
    walletLabel := some "Whale", isWhale := true, isSmart := false
    txHash := "0xhash" }

lemma processTradeFull_rawSideX :
    processTradeFull emptyMap rawSideX st0 =
      (some recSideX, { processed := 1, filtered := 0, enriched := 0 }) := by
  rw [processTradeFull_untracked emptyMap rawSideX st0 50000 3 rfl rfl rfl rfl,
    if_pos (by norm_num [WHALE_THRESHOLD_USD])]
  rfl

/-- Counterexample for C7: a raw event with malformed side "X" is not
discarded and not counted as filtered; it is emitted with side Short,
contradicting the claim that a malformed side is a record parse
failure. -/
theorem side_mapping_cex :
    ((processTradeFull emptyMap rawSideX st0).1).map (fun r => r.side)
      = some TradeSide.short ∧
    (processTradeFull emptyMap rawSideX st0).2.filtered = 0 := by
  rw [processTradeFull_rawSideX]
  exact ⟨rfl, rfl⟩

/-- Witness for C7's amended theorem at a concrete malformed-side event. -/
theorem side_mapping_amended_witness :
    recSideX.side = (if rawSideX.side = "B" then TradeSide.long else TradeSide.short) ∧
    ((processTradeFull emptyMap { rawSideX with side := "B" } st0).1).isSome
      = ((processTradeFull emptyMap rawSideX st0).1).isSome := by
  have h := side_mapping_amended emptyMap rawSideX st0
  exact ⟨h.1 recSideX (by rw [processTradeFull_rawSideX]), h.2 "B"⟩

/-- A concrete untracked large-notional raw event. -/
def rawWhaleUntracked : HyperliquidTrade := mkRaw "B" (JsNum.num 50000) (JsNum.num 3)

lemma processTradeFull_rawWhaleUntracked :
    processTradeFull emptyMap rawWhaleUntracked st0 =
      (some { id := generateTradeId 1 "0xhash", timestamp := 1000, ticker := "BTC",
              side := TradeSide.long, price := JsNum.num 50000,
              sizeUsd := JsNum.num (50000 * 3), walletAddress := "0xB",
              walletLabel := some "Whale", isWhale := true, isSmart := false,
              txHash := "0xhash" },
        { processed := 1, filtered := 0, enriched := 0 }) := by
  rw [processTradeFull_untracked emptyMap rawWhaleUntracked st0 50000 3 rfl rfl rfl rfl,
    if_pos (by norm_num [WHALE_THRESHOLD_USD])]
  rfl

/-- Counterexample for C3: for an untracked large-notional event the code
attributes the record with label "Whale", not label "Large" as the claim
states. -/
theorem attribution_cex :
    ((processTradeFull emptyMap rawWhaleUntracked st0).1).map (fun r => r.walletLabel)
      = some (some "Whale") ∧
    ((processTradeFull emptyMap rawWhaleUntracked st0).1).map (fun r => r.walletLabel)
      ≠ some (some "Large") := by
  rw [processTradeFull_rawWhaleUntracked]
  exact ⟨rfl, by decide⟩

/-- C3 (amended): the attributed address follows the claim — the matching
lookup entry's address, preferring maker; else the taker for untracked
large trades; else the maker — but the label does not always follow it:
for a tracked record it is the first label of the matching entry unless
that is missing or empty, in which case it falls back to the large-trade
label "Whale" when the trade is large and is absent otherwise; and for an
untracked large trade the label is the string "Whale", not "Large". -/
theorem attribution_amended (m : SmartWalletMap) (raw : HyperliquidTrade)
    (st : ProcessorStats) (rec : UnifiedTradeLog)
    (hres : (processTradeFull m raw st).1 = some rec) :
    (∀ e, m (toLowerStr raw.maker) = some e →
      rec.walletAddress = raw.maker ∧
      rec.walletLabel = jsOrStr e.labels.head?
        (if rec.isWhale = true then some "Whale" else none)) ∧
    (m (toLowerStr raw.maker) = none →
      ∀ e, m (toLowerStr raw.taker) = some e →
      rec.walletAddress = raw.taker ∧
      rec.walletLabel = jsOrStr e.labels.head?
        (if rec.isWhale = true then some "Whale" else none)) ∧
    (m (toLowerStr raw.maker) = none → m (toLowerStr raw.taker) = none →
      (rec.isWhale = true →
        rec.walletAddress = raw.taker ∧ rec.walletLabel = some "Whale") ∧
      (rec.isWhale = false →
        rec.walletAddress = raw.maker ∧ rec.walletLabel = none)) := by
  refine ⟨?_, ?_, ?_⟩
  · intro e he
    simp only [processTradeFull, he] at hres
    simp only [Option.isSome_some, Bool.true_or, Bool.not_true, Bool.false_and,
      Bool.false_eq_true, if_false] at hres
    simp only [Option.some.injEq] at hres
    subst hres
    simp [jsOrStr, Option.or]
  · intro hm e he
    simp only [processTradeFull, hm, he] at hres
    simp only [Option.isSome_some, Option.isSome_none, Bool.false_or, Bool.not_true,
      Bool.false_and, Bool.false_eq_true, if_false] at hres
    simp only [Option.some.injEq] at hres
    subst hres
    simp [jsOrStr, Option.or]
  · intro hm ht
    simp only [processTradeFull, hm, ht] at hres
    simp only [Option.isSome_none, Bool.or_self, Bool.not_false, Bool.true_and] at hres
    split at hres
    · simp at hres
    · simp only [Option.some.injEq] at hres
      subst hres
      rcases Bool.eq_false_or_eq_true
          (jsGeB (jsMul raw.px raw.sz) (JsNum.num WHALE_THRESHOLD_USD)) with hW | hW <;>
        constructor <;> intro hw <;> simp_all [jsOrStr, Option.or]

/-- A concrete tracked-wallet entry labelled "Fund". -/
def entryFund : SmartWalletEntry :=
  { isSmartMoney := true, labels := ["Fund"], tier := "smart" }

/-- A concrete lookup table tracking the lowercased maker address. -/
def mapA : SmartWalletMap :=
  fun a => if a = "0xa" then some entryFund else none

/-- A concrete raw event whose maker is tracked by `mapA`. -/
def rawTracked : HyperliquidTrade := mkRaw "B" (JsNum.num 5000) (JsNum.num 1)

/-- The record the processor emits for `rawTracked` under `mapA`. -/
def recTracked : UnifiedTradeLog :=
  { id := generateTradeId 1 "0xhash", timestamp := 1000, ticker := "BTC"
    side := TradeSide.long, price := JsNum.num 5000
    sizeUsd := JsNum.num 5000, walletAddress := "0xA"
    walletLabel := some "Fund", isWhale := false, isSmart := true
    txHash := "0xhash" }

lemma processTradeFull_rawTracked :
    processTradeFull mapA rawTracked st0 =
      (some recTracked, { processed := 1, filtered := 0, enriched := 1 }) := by
  have hA : mapA (toLowerStr "0xA") = some entryFund := rfl
  have hB : mapA (toLowerStr "0xB") = none := rfl
  have hmul : jsMul (JsNum.num 5000) (JsNum.num 1) = JsNum.num 5000 := by
    simp [jsMul]
  have hW : jsGeB (JsNum.num 5000) (JsNum.num WHALE_THRESHOLD_USD) = false := by
    norm_num [jsGeB, WHALE_THRESHOLD_USD]
  simp [processTradeFull, rawTracked, mkRaw, hA, hB, hmul, hW, jsOrStr, Option.or,
    recTracked, st0, entryFund]

/-- Witness for C3's amended theorem: a tracked-maker record is attributed
to the maker address with the entry's first label. -/
theorem attribution_amended_witness :
    recTracked.walletAddress = rawTracked.maker ∧
    recTracked.walletLabel = jsOrStr entryFund.labels.head?
      (if recTracked.isWhale = true then some "Whale" else none) := by
  exact (attribution_amended mapA rawTracked st0 recTracked
    (by rw [processTradeFull_rawTracked])).1 entryFund rfl

/-! ## Injectivity of the generated trade id in the source trade id -/

/-- Value of a little-endian digit list. -/
def digitsVal : List ℕ → ℕ
  | [] => 0
  | d :: ds => d + 10 * digitsVal ds

lemma toDigitsAux_lt10 : ∀ (fuel n d : ℕ), d ∈ toDigitsAux fuel n → d < 10 := by
  intro fuel
  induction fuel with
  | zero => intro n d hd; simp [toDigitsAux] at hd
  | succ fuel ih =>
    intro n d hd
    by_cases hn : n = 0
    · simp [toDigitsAux, hn] at hd
    · simp only [toDigitsAux, if_neg hn, List.mem_cons] at hd
      rcases hd with hd | hd
      · subst hd; exact Nat.mod_lt _ (by norm_num)
      · exact ih _ _ hd

lemma digitsVal_toDigitsAux : ∀ (fuel n : ℕ), n ≤ fuel →
    digitsVal (toDigitsAux fuel n) = n := by
  intro fuel
  induction fuel with
  | zero => intro n hn; interval_cases n; rfl
  | succ fuel ih =>
    intro n hn
    by_cases hn0 : n = 0
    · simp [toDigitsAux, hn0, digitsVal]
    · have hdiv : n / 10 ≤ fuel := by
        have h1 : n / 10 < n := Nat.div_lt_self (Nat.pos_of_ne_zero hn0) (by norm_num)
        omega
      simp only [toDigitsAux, if_neg hn0, digitsVal, ih _ hdiv]
      omega

lemma natDigitsRev_lt10 (n d : ℕ) (hd : d ∈ natDigitsRev n) : d < 10 :=
  toDigitsAux_lt10 n n d hd

lemma digitsVal_natDigitsRev (n : ℕ) : digitsVal (natDigitsRev n) = n :=
  digitsVal_toDigitsAux n n le_rfl

lemma digitChar10_toNat (d : ℕ) (h : d < 10) : (digitChar10 d).toNat = 48 + d := by
  interval_cases d <;> rfl

lemma digitChar10_isDigit (d : ℕ) (h : d < 10) : (digitChar10 d).isDigit = true := by
  interval_cases d <;> rfl

/-- Parse a most-significant-first decimal digit string back to a
number. -/
def parseNat (l : List Char) : ℕ :=
  l.foldl (fun acc c => 10 * acc + (c.toNat - 48)) 0

lemma foldr_digits_eq_digitsVal (ds : List ℕ) (h : ∀ d ∈ ds, d < 10) :
    ds.foldr (fun d acc => 10 * acc + ((digitChar10 d).toNat - 48)) 0 = digitsVal ds := by
  induction ds with
  | nil => rfl
  | cons d ds ih =>
    have hd : d < 10 := h d (by simp)
    simp only [List.foldr_cons, digitsVal, ih (fun x hx => h x (by simp [hx])),
      digitChar10_toNat d hd]
    omega

lemma parseNat_natRepr (n : ℕ) : parseNat (natRepr n) = n := by
  by_cases hn : n = 0
  · subst hn; rfl
  · simp only [natRepr, if_neg hn, parseNat, List.foldl_reverse, List.foldr_map]
    have := foldr_digits_eq_digitsVal (natDigitsRev n) (natDigitsRev_lt10 n)
    simpa [digitsVal_natDigitsRev n] using this

lemma natRepr_injective : Function.Injective natRepr := by
  intro a b h
  rw [← parseNat_natRepr a, ← parseNat_natRepr b, h]

lemma natRepr_isDigit (n : ℕ) : ∀ c ∈ natRepr n, c.isDigit = true := by
  intro c hc
  by_cases hn : n = 0
  · subst hn
    simp only [natRepr, if_true, List.mem_singleton, reduceIte] at hc
    subst hc; rfl
  · simp only [natRepr, if_neg hn, List.mem_reverse, List.mem_map] at hc
    obtain ⟨d, hd, rfl⟩ := hc
    exact digitChar10_isDigit d (natDigitsRev_lt10 n d hd)

lemma takeWhile_append_eq (p : Char → Bool) (xs : List Char) (y : Char)
    (ys : List Char) (hxs : ∀ x ∈ xs, p x = true) (hy : p y = false) :
    (xs ++ y :: ys).takeWhile p = xs := by
  induction xs with
  | nil => simp [List.takeWhile_cons, hy]
  | cons a as ih =>
    have ha : p a = true := hxs a (by simp)
    simp [List.takeWhile_cons, ha, ih (fun x hx => hxs x (by simp [hx]))]

/-- C10: the generated trade id is deterministic in its inputs and
injective in the source trade id: two events with distinct trade ids get
distinct generated ids regardless of their hashes, so dedup by id never
conflates trades with different source trade ids. -/
theorem generateTradeId_deterministic_injective :
    (∀ (tid : ℕ) (h1 h2 : String), h1 = h2 →
      generateTradeId tid h1 = generateTradeId tid h2) ∧
    (∀ (t1 t2 : ℕ) (h1 h2 : String), t1 ≠ t2 →
      generateTradeId t1 h1 ≠ generateTradeId t2 h2) := by
  constructor
  · intro tid h1 h2 h
    rw [h]
  · intro t1 t2 h1 h2 hne heq
    apply hne
    apply natRepr_injective
    have hdata : natRepr t1 ++ Char.ofNat 45 :: h1.data.take 8
        = natRepr t2 ++ Char.ofNat 45 :: h2.data.take 8 :=
      congrArg String.data heq
    have hdash : (Char.ofNat 45).isDigit = false := rfl
    have htw := congrArg (List.takeWhile Char.isDigit) hdata
    rwa [takeWhile_append_eq _ _ _ _ (natRepr_isDigit t1) hdash,
      takeWhile_append_eq _ _ _ _ (natRepr_isDigit t2) hdash] at htw

/-- Witness for C10 at concrete trade ids 1 and 2. -/
theorem generateTradeId_witness :
    generateTradeId 3 "0xdeadbeef" = generateTradeId 3 "0xdeadbeef" ∧
    ((1 : ℕ) ≠ 2 ∧ generateTradeId 1 "0xdeadbeef" ≠ generateTradeId 2 "0xdeadbeef") :=
  ⟨generateTradeId_deterministic_injective.1 3 "0xdeadbeef" "0xdeadbeef" rfl,
    by decide,
    generateTradeId_deterministic_injective.2 1 2 "0xdeadbeef" "0xdeadbeef" (by decide)⟩

/-! ## Store lemmas and claims about the buffer -/

lemma addTrades_trades_eq (s : StoreState) (ts : List UnifiedTradeLog) :
    (addTrades s ts).trades
      = ((ts.filter (fun t => !(decide (t.id ∈ idsOf s.trades)))) ++ s.trades).take
          s.maxTrades := rfl

lemma addTrades_maxTrades (s : StoreState) (ts : List UnifiedTradeLog) :
    (addTrades s ts).maxTrades = s.maxTrades := rfl

lemma addTrades_totalTrades (s : StoreState) (ts : List UnifiedTradeLog) :
    (addTrades s ts).stats.totalTrades = s.stats.totalTrades + ts.length := rfl

lemma addTrades_smartTrades (s : StoreState) (ts : List UnifiedTradeLog) :
    (addTrades s ts).stats.smartTrades
      = s.stats.smartTrades + (ts.filter (fun t => t.isSmart)).length := rfl

lemma addTrades_whaleTrades (s : StoreState) (ts : List UnifiedTradeLog) :
    (addTrades s ts).stats.whaleTrades
      = s.stats.whaleTrades + (ts.filter (fun t => t.isWhale)).length := rfl

lemma addTrades_totalVolume (s : StoreState) (ts : List UnifiedTradeLog) :
    (addTrades s ts).stats.totalVolume
      = jsAdd s.stats.totalVolume
          (ts.foldl (fun acc t => jsAdd acc t.sizeUsd) (JsNum.num 0)) := rfl

lemma addTrade_trades_eq (s : StoreState) (t : UnifiedTradeLog) :
    (addTrade s t).trades = (t :: s.trades).take s.maxTrades := rfl

lemma addTrade_maxTrades (s : StoreState) (t : UnifiedTradeLog) :
    (addTrade s t).maxTrades = s.maxTrades := rfl

/-- C1 (amended): submitting the same record in two different flush
cycles yields exactly one entry with its identifier in the collection —
but every aggregate counter is incremented in BOTH flushes: the counters
sum over the whole incoming batch before deduplication, so the duplicate
is double-counted. -/
theorem addTrades_dedup_double_count (s : StoreState) (r : UnifiedTradeLog)
    (hid : r.id ∉ idsOf s.trades) (hN : 0 < s.maxTrades) :
    (idsOf (addTrades (addTrades s [r]) [r]).trades).count r.id = 1 ∧
    (addTrades (addTrades s [r]) [r]).stats.totalTrades = s.stats.totalTrades + 2 ∧
    (addTrades (addTrades s [r]) [r]).stats.smartTrades
      = s.stats.smartTrades + (if r.isSmart then 2 else 0) ∧
    (addTrades (addTrades s [r]) [r]).stats.whaleTrades
      = s.stats.whaleTrades + (if r.isWhale then 2 else 0) ∧
    (addTrades (addTrades s [r]) [r]).stats.totalVolume
      = jsAdd (jsAdd s.stats.totalVolume r.sizeUsd) r.sizeUsd := by
  obtain ⟨m, hm⟩ : ∃ m, s.maxTrades = m + 1 := ⟨s.maxTrades - 1, by omega⟩
  have hfilter1 : [r].filter (fun t => !(decide (t.id ∈ idsOf s.trades))) = [r] := by
    simp [hid]
  have h1tr : (addTrades s [r]).trades = r :: s.trades.take m := by
    rw [addTrades_trades_eq, hfilter1]
    simp only [List.singleton_append, hm, List.take_succ_cons]
  have hmem : r.id ∈ idsOf (addTrades s [r]).trades := by
    rw [h1tr]; simp [idsOf]
  have hfilter2 :
      [r].filter (fun t => !(decide (t.id ∈ idsOf (addTrades s [r]).trades))) = [] := by
    simp [hmem]
  have h2tr : (addTrades (addTrades s [r]) [r]).trades = (addTrades s [r]).trades := by
    rw [addTrades_trades_eq, hfilter2, List.nil_append, addTrades_maxTrades]
    apply List.take_of_length_le
    rw [addTrades_trades_eq, hfilter1]
    exact le_trans (List.length_take_le _ _) le_rfl
  have h0 : (idsOf s.trades).count r.id = 0 := List.count_eq_zero.mpr hid
  have hsub : List.Sublist (idsOf (s.trades.take m)) (idsOf s.trades) :=
    (List.take_sublist m s.trades).map _
  have htake0 : (idsOf (s.trades.take m)).count r.id = 0 :=
    Nat.le_zero.mp (h0 ▸ hsub.count_le r.id)
  refine ⟨?_, ?_, ?_, ?_, ?_⟩
  · rw [h2tr, h1tr]
    have htake0' : List.count r.id (List.take m (List.map (fun t => t.id) s.trades)) = 0 := by
      simpa [idsOf, List.map_take] using htake0
    simp [idsOf, htake0']
  · rw [addTrades_totalTrades, addTrades_totalTrades]
    show s.stats.totalTrades + 1 + 1 = s.stats.totalTrades + 2
    omega
  · rw [addTrades_smartTrades, addTrades_smartTrades]
    cases hr : r.isSmart <;> simp [hr]
  · rw [addTrades_whaleTrades, addTrades_whaleTrades]
    cases hr : r.isWhale <;> simp [hr]
  · rw [addTrades_totalVolume, addTrades_totalVolume]
    show jsAdd (jsAdd s.stats.totalVolume (jsAdd (JsNum.num 0) r.sizeUsd))
        (jsAdd (JsNum.num 0) r.sizeUsd) = _
    rw [jsAdd_zero_left]

/-- A concrete normalized record used in store counterexamples. -/
def trade0 : UnifiedTradeLog :=
  { id := "1-h", timestamp := 0, ticker := "BTC", side := TradeSide.long
    price := JsNum.num 1, sizeUsd := JsNum.num 5, walletAddress := "0xA"
    walletLabel := none, isWhale := false, isSmart := false, txHash := "h" }

/-- Counterexample for C1: submitting the same record in two flush cycles
leaves exactly one entry in the collection, but the total-trades counter
ends at 2, not 1 — it is incremented for the record in both flushes. -/
theorem addTrades_dedup_cex :
    (idsOf (addTrades (addTrades initialStore [trade0]) [trade0]).trades).count
        trade0.id = 1 ∧
    (addTrades (addTrades initialStore [trade0]) [trade0]).stats.totalTrades = 2 ∧
    ¬ (addTrades (addTrades initialStore [trade0]) [trade0]).stats.totalTrades = 1 := by
  refine ⟨?_, rfl, by decide⟩
  decide

/-- Witness for C1's amended theorem at the initial store and a concrete
record. -/
theorem addTrades_dedup_double_count_witness :
    (idsOf (addTrades (addTrades initialStore [trade0]) [trade0]).trades).count
        trade0.id = 1 ∧
    (addTrades (addTrades initialStore [trade0]) [trade0]).stats.totalTrades
      = initialStore.stats.totalTrades + 2 ∧
    (addTrades (addTrades initialStore [trade0]) [trade0]).stats.smartTrades
      = initialStore.stats.smartTrades + (if trade0.isSmart then 2 else 0) ∧
    (addTrades (addTrades initialStore [trade0]) [trade0]).stats.whaleTrades
      = initialStore.stats.whaleTrades + (if trade0.isWhale then 2 else 0) ∧
    (addTrades (addTrades initialStore [trade0]) [trade0]).stats.totalVolume
      = jsAdd (jsAdd initialStore.stats.totalVolume trade0.sizeUsd) trade0.sizeUsd :=
  addTrades_dedup_double_count initialStore trade0 (by decide) (by decide)

lemma take_append_take {α : Type} (n : ℕ) (xs ys : List α) :
    (xs ++ ys.take n).take n = (xs ++ ys).take n := by
  rw [List.take_append_eq_append_take, List.take_append_eq_append_take,
    List.take_take]
  rw [Nat.min_eq_left (Nat.sub_le n xs.length)]

lemma foldl_addTrade_trades : ∀ (rs : List UnifiedTradeLog) (s : StoreState),
    s.trades.length ≤ s.maxTrades →
    (rs.foldl addTrade s).trades = (rs.reverse ++ s.trades).take s.maxTrades ∧
    (rs.foldl addTrade s).maxTrades = s.maxTrades := by
  intro rs
  induction rs with
  | nil =>
    intro s h
    constructor
    · simp [List.take_of_length_le h]
    · rfl
  | cons r rs ih =>
    intro s h
    have hlen : (addTrade s r).trades.length ≤ (addTrade s r).maxTrades := by
      rw [addTrade_trades_eq, addTrade_maxTrades]
      exact List.length_take_le _ _
    obtain ⟨htr, hmax⟩ := ih (addTrade s r) hlen
    constructor
    · rw [List.foldl_cons, htr, addTrade_maxTrades, addTrade_trades_eq,
        take_append_take]
      simp [List.reverse_cons, List.append_assoc]
    · rw [List.foldl_cons, hmax, addTrade_maxTrades]

/-- C4 (amended): every operation keeps the collection within the fixed
capacity; `addTrades` preserves identifier-uniqueness whenever the
incoming batch itself has pairwise-distinct identifiers, but `addTrade`
performs no deduplication at all; and for `addTrade`-only sequences the
collection is exactly the most recent `maxTrades` submissions, newest
first. -/
theorem buffer_invariant_amended (s : StoreState) :
    (∀ t : UnifiedTradeLog, (addTrade s t).trades.length ≤ s.maxTrades) ∧
    (∀ ts : List UnifiedTradeLog, (addTrades s ts).trades.length ≤ s.maxTrades) ∧
    (∀ ts : List UnifiedTradeLog, (idsOf s.trades).Nodup → (idsOf ts).Nodup →
      (idsOf (addTrades s ts).trades).Nodup) ∧
    (∀ rs : List UnifiedTradeLog, s.trades = [] → (rs.foldl addTrade s).trades
      = rs.reverse.take s.maxTrades) := by
  refine ⟨?_, ?_, ?_, ?_⟩
  · intro t
    rw [addTrade_trades_eq]
    exact List.length_take_le _ _
  · intro ts
    rw [addTrades_trades_eq]
    exact List.length_take_le _ _
  · intro ts hs hts
    rw [addTrades_trades_eq]
    simp only [idsOf, List.map_take] at *
    apply List.Nodup.sublist (List.take_sublist _ _)
    rw [List.map_append]
    refine List.nodup_append.mpr ⟨?_, hs, ?_⟩
    · exact hts.sublist ((List.filter_sublist _).map _)
    · intro x hx
      simp only [List.mem_map] at hx
      obtain ⟨t, htmem, rfl⟩ := hx
      have hp := List.of_mem_filter htmem
      simp only [Bool.not_eq_true', decide_eq_false_iff_not, idsOf] at hp
      simpa using hp
  · intro rs hempty
    obtain ⟨htr, _⟩ := foldl_addTrade_trades rs s (by rw [hempty]; simp)
    rw [htr, hempty, List.append_nil]

/-- A family of records with pairwise-distinct decimal identifiers. -/
def mkT (i : ℕ) : UnifiedTradeLog := { trade0 with id := String.mk (natRepr i) }

/-- Counterexample for C4: `addTrade` performs no deduplication, so
submitting the same record twice leaves two entries sharing an
identifier; and one `addTrades` flush of 101 distinct records keeps the
first 100 of the batch, evicting the newest record — the collection is
not the 100 most recent by submission order. -/
theorem buffer_invariant_cex :
    ¬ (idsOf (addTrade (addTrade initialStore (mkT 0)) (mkT 0)).trades).Nodup ∧
    (addTrades initialStore ((List.range 101).map mkT)).trades.length = 100 ∧
    (mkT 100).id ∉ idsOf (addTrades initialStore ((List.range 101).map mkT)).trades := by
  refine ⟨by decide, by decide, by decide⟩

/-- Witness for C4's amended theorem at the initial store. -/
theorem buffer_invariant_witness :
    (addTrade initialStore trade0).trades.length ≤ initialStore.maxTrades ∧
    (idsOf (addTrades initialStore [trade0]).trades).Nodup ∧
    ([trade0].foldl addTrade initialStore).trades
      = [trade0].reverse.take initialStore.maxTrades := by
  have h := buffer_invariant_amended initialStore
  exact ⟨h.1 trade0, h.2.2.1 [trade0] (by decide) (by decide), h.2.2.2 [trade0] rfl⟩

/-- A finite, nonnegative JS number. -/
def jsNonneg : JsNum → Prop
  | JsNum.nan => False
  | JsNum.num q => 0 ≤ q

/-- Rational value of a JS number, zero for NaN. -/
def ratOr0 : JsNum → ℚ
  | JsNum.nan => 0
  | JsNum.num q => q

/-- Sum of the notionals of a batch. -/
def batchSum (ts : List UnifiedTradeLog) : ℚ :=
  (ts.map (fun t => ratOr0 t.sizeUsd)).sum

lemma foldl_jsAdd_num : ∀ (ts : List UnifiedTradeLog) (v : ℚ),
    (∀ t ∈ ts, jsNonneg t.sizeUsd) →
    ts.foldl (fun acc t => jsAdd acc t.sizeUsd) (JsNum.num v)
      = JsNum.num (v + batchSum ts) := by
  intro ts
  induction ts with
  | nil => intro v _; simp [batchSum]
  | cons t ts ih =>
    intro v h
    have ht := h t (by simp)
    cases hsz : t.sizeUsd with
    | nan => rw [hsz] at ht; exact absurd ht (by simp [jsNonneg])
    | num q =>
      simp only [List.foldl_cons]
      rw [hsz]
      have hstep : jsAdd (JsNum.num v) (JsNum.num q) = JsNum.num (v + q) := rfl
      rw [hstep, ih (v + q) (fun x hx => h x (by simp [hx]))]
      congr 1
      simp [batchSum, hsz, ratOr0]
      ring

lemma batchSum_nonneg (ts : List UnifiedTradeLog)
    (h : ∀ t ∈ ts, jsNonneg t.sizeUsd) : 0 ≤ batchSum ts := by
  apply List.sum_nonneg
  intro x hx
  simp only [List.mem_map] at hx
  obtain ⟨t, htmem, rfl⟩ := hx
  have ht := h t htmem
  cases hsz : t.sizeUsd with
  | nan => rw [hsz] at ht; exact absurd ht (by simp [jsNonneg])
  | num q => rw [hsz] at ht; exact ht

/-- C8 (amended): the three count counters are non-decreasing under every
`addTrade`/`addTrades` call unconditionally, and the cumulative volume is
non-decreasing provided every submitted record carries a finite
nonnegative notional (a record with negative or NaN notional can decrease
or poison it); only `clearTrades` resets the counters to zero. -/
theorem counters_monotone_amended (s : StoreState) :
    (∀ t : UnifiedTradeLog,
      s.stats.totalTrades ≤ (addTrade s t).stats.totalTrades ∧
      s.stats.smartTrades ≤ (addTrade s t).stats.smartTrades ∧
      s.stats.whaleTrades ≤ (addTrade s t).stats.whaleTrades) ∧
    (∀ ts : List UnifiedTradeLog,
      s.stats.totalTrades ≤ (addTrades s ts).stats.totalTrades ∧
      s.stats.smartTrades ≤ (addTrades s ts).stats.smartTrades ∧
      s.stats.whaleTrades ≤ (addTrades s ts).stats.whaleTrades) ∧
    (∀ (t : UnifiedTradeLog) (q v : ℚ), t.sizeUsd = JsNum.num q → 0 ≤ q →
      s.stats.totalVolume = JsNum.num v →
      (addTrade s t).stats.totalVolume = JsNum.num (v + q) ∧ v ≤ v + q) ∧
    (∀ (ts : List UnifiedTradeLog) (v : ℚ),
      (∀ t ∈ ts, jsNonneg t.sizeUsd) → s.stats.totalVolume = JsNum.num v →
      (addTrades s ts).stats.totalVolume = JsNum.num (v + batchSum ts) ∧
        v ≤ v + batchSum ts) ∧
    ((clearTrades s).stats.totalTrades = 0 ∧
      (clearTrades s).stats.smartTrades = 0 ∧
      (clearTrades s).stats.whaleTrades = 0 ∧
      (clearTrades s).stats.totalVolume = JsNum.num 0) := by
  refine ⟨?_, ?_, ?_, ?_, rfl, rfl, rfl, rfl⟩
  · intro t
    exact ⟨Nat.le_add_right _ _, Nat.le_add_right _ _, Nat.le_add_right _ _⟩
  · intro ts
    exact ⟨Nat.le_add_right _ _, Nat.le_add_right _ _, Nat.le_add_right _ _⟩
  · intro t q v hq h0 hv
    constructor
    · show jsAdd s.stats.totalVolume t.sizeUsd = _
      rw [hq, hv]
      simp [jsAdd]
    · exact le_add_of_nonneg_right h0
  · intro ts v hts hv
    constructor
    · rw [addTrades_totalVolume, hv, foldl_jsAdd_num ts 0 hts]
      simp [jsAdd]
    · exact le_add_of_nonneg_right (batchSum_nonneg ts hts)

/-- A concrete record with negative notional. -/
def tNeg : UnifiedTradeLog :=
  { trade0 with id := "2-h", sizeUsd := JsNum.num (-5) }

/-- Counterexample for C8: adding a record with negative notional makes
the cumulative-volume counter decrease from 0 to -5, so the counters are
not non-decreasing for every sequence of buffer operations. -/
theorem counters_monotone_cex :
    (addTrade initialStore tNeg).stats.totalVolume = JsNum.num (-5) ∧
    jsLeB initialStore.stats.totalVolume
      ((addTrade initialStore tNeg).stats.totalVolume) = false := by
  have h : (addTrade initialStore tNeg).stats.totalVolume = JsNum.num (-5) := by
    show jsAdd (JsNum.num 0) (JsNum.num (-5)) = JsNum.num (-5)
    rw [jsAdd_zero_left]
  refine ⟨h, ?_⟩
  rw [h]
  decide

/-- Witness for C8's amended theorem at the initial store. -/
theorem counters_monotone_witness :
    initialStore.stats.totalTrades ≤ (addTrade initialStore trade0).stats.totalTrades ∧
    (addTrade initialStore trade0).stats.totalVolume = JsNum.num (0 + 5) ∧
    (addTrades initialStore [trade0]).stats.totalVolume
      = JsNum.num (0 + batchSum [trade0]) ∧
    (clearTrades initialStore).stats.totalVolume = JsNum.num 0 := by
  have h := counters_monotone_amended initialStore
  refine ⟨(h.1 trade0).1, (h.2.2.1 trade0 5 0 rfl (by norm_num) rfl).1, ?_, ?_⟩
  · exact (h.2.2.2.1 [trade0] 0 (by
      intro t ht
      simp only [List.mem_singleton] at ht
      subst ht
      norm_num [jsNonneg, trade0]) rfl).1
  · exact h.2.2.2.2.2.2.2
